import Mathlib

/-!
Verification of the Tetris core of `tetrishdrv0.py`.

The Python source drives a tkinter canvas; its simulation core (board
occupancy, piece geometry, rotation kicks, gravity table, randomizer,
scoring, key handling) is embedded here as executable Lean definitions.
Canvas rectangles standing for settled blocks are modelled by the list of
their cell coordinates (`Board`); the `find_enclosed` queries of the
source become list membership and row filters, which is exactly the
information those queries return for the 20-pixel aligned rectangles the
game draws.  Randomness is made explicit: each accepted draw of the
randomizer is an input of the step function, and the `next(...)` calls of
the game consume an explicit tape of kinds carried in the game state.
-/

set_option maxRecDepth 100000

namespace Tetris

/-- Board width in cells (source constant `W_BOX_NUM`). -/
def W_BOX_NUM : Nat := 10

/-- Board height in cells (source constant `H_BOX_NUM`). -/
def H_BOX_NUM : Nat := 20

/-- Frames of the line-clear freeze (source constant `LINE_CLEAR_DELAY_FRAMES`). -/
def LINE_CLEAR_DELAY_FRAMES : Nat := 20

/-- The seven tetromino kinds, in the order of `FIGURE_SHAPES`. -/
inductive Kind where
  | T | L | J | S | Z | O | I
deriving DecidableEq

/-- Source `SHAPE_KEYS = list(FIGURE_SHAPES.keys())`. -/
def SHAPE_KEYS : List Kind := [.T, .L, .J, .S, .Z, .O, .I]

/-- Rotation states of `FIGURE_SHAPES[key]['s']`: per rotation, the four
cell offsets relative to the pivot. -/
def shapeStates : Kind → List (List (Int × Int))
  | .T => [[(0,0),(-1,0),(1,0),(0,-1)], [(0,0),(0,-1),(0,1),(1,0)],
           [(0,0),(-1,0),(1,0),(0,1)], [(0,0),(0,-1),(0,1),(-1,0)]]
  | .L => [[(0,0),(-1,0),(1,0),(1,-1)], [(0,0),(0,-1),(0,1),(1,1)],
           [(0,0),(1,0),(-1,0),(-1,1)], [(0,0),(0,1),(0,-1),(-1,-1)]]
  | .J => [[(0,0),(-1,0),(1,0),(-1,1)], [(0,0),(0,-1),(0,1),(-1,-1)],
           [(0,0),(1,0),(-1,0),(1,1)], [(0,0),(0,1),(0,-1),(1,-1)]]
  | .S => [[(0,0),(1,0),(0,-1),(-1,-1)], [(0,0),(-1,0),(0,1),(-1,-1)]]
  | .Z => [[(0,0),(-1,0),(0,-1),(1,-1)], [(0,0),(1,0),(0,1),(1,-1)]]
  | .O => [[(0,0),(1,0),(0,1),(1,1)]]
  | .I => [[(-1,0),(0,0),(1,0),(2,0)], [(0,1),(0,0),(0,-1),(0,-2)]]

/-- Number of rotation states, `len(self.shape['s'])`. -/
def rotCount (k : Kind) : Nat := (shapeStates k).length

/-- Offsets of one rotation state, `self.shape['s'][rot]` (the source only
ever indexes with `rot` in range; out-of-range yields `[]` here). -/
def getOffsets (k : Kind) (rot : Nat) : List (Int × Int) :=
  (shapeStates k).getD rot []

/-- Settled blocks (`self.bg`): the list of occupied cell coordinates. -/
abbrev Board := List (Int × Int)

/-- One cell of the collision test of `Figure.is_colliding`: out of bounds
on the left, right or bottom counts as blocked, otherwise the canvas query
asks whether a settled block occupies the cell. -/
def cellBlocked (b : Board) (c : Int × Int) : Bool :=
  if 0 ≤ c.1 ∧ c.1 < (W_BOX_NUM : Int) ∧ c.2 < (H_BOX_NUM : Int) then
    b.contains c
  else
    true

/-- Source `Figure.is_colliding(coords)`. -/
def isColliding (coords : List (Int × Int)) (b : Board) : Bool :=
  coords.any fun c => cellBlocked b c

/-- Source `Figure.get_coords(rot, piv)`. -/
def getCoords (k : Kind) (rot : Nat) (piv : Int × Int) : List (Int × Int) :=
  (getOffsets k rot).map fun o => (piv.1 + o.1, piv.2 + o.2)

/-- The kick offsets tried by `Figure.rotate`, in source order. -/
def kickOffsets : List (Int × Int) := [(0,0),(-1,0),(1,0),(-2,0),(2,0),(0,-1)]

/-- An active falling piece: `Figure`'s simulation fields. -/
structure Fig where
  kind : Kind
  rot : Nat
  pivot : Int × Int
  stopped : Bool
deriving DecidableEq

/-- Source `Figure.move(dx, dy)`: returns the updated figure and whether
the move succeeded; a failed downward move sets the `stopped` flag. -/
def Fig.move (f : Fig) (b : Board) (dx dy : Int) : Fig × Bool :=
  let np := (f.pivot.1 + dx, f.pivot.2 + dy)
  if isColliding (getCoords f.kind f.rot np) b then
    (if 0 < dy then { f with stopped := true } else f, false)
  else
    ({ f with pivot := np }, true)

/-- The kick loop of `Figure.rotate`: try the offsets in order, return the
first non-colliding test pivot. -/
def tryKicks (k : Kind) (newRot : Nat) (piv : Int × Int) (b : Board) :
    List (Int × Int) → Option (Int × Int)
  | [] => none
  | off :: offs =>
    let tp := (piv.1 + off.1, piv.2 + off.2)
    if isColliding (getCoords k newRot tp) b then
      tryKicks k newRot piv b offs
    else
      some tp

/-- Source `Figure.rotate(dr)`: candidate rotation index
`(rot + dr) mod rotation count` (Python `%`, i.e. `Int.emod`), kicks tried
in source order; commit on the first non-colliding placement, otherwise
leave the figure unchanged and report failure. -/
def Fig.rotate (f : Fig) (b : Board) (dr : Int) : Fig × Bool :=
  let newRot := (((f.rot : Int) + dr).emod (rotCount f.kind)).toNat
  match tryKicks f.kind newRot f.pivot b kickOffsets with
  | some tp => ({ f with rot := newRot, pivot := tp }, true)
  | none => (f, false)

/-- The loop of `Figure.drop`, with fuel bounding the iteration count; the
fuel used by `dropPivot` is proved sufficient for the loop to reach its
fixpoint (theorem on `Fig.drop` below). -/
def dropAux (k : Kind) (rot : Nat) (b : Board) : Nat → Int × Int → Int × Int
  | 0, p => p
  | fuel + 1, p =>
    if isColliding (getCoords k rot (p.1, p.2 + 1)) b then p
    else dropAux k rot b fuel (p.1, p.2 + 1)

/-- Resting pivot of `Figure.drop`: descend while the cell below is free. -/
def dropPivot (k : Kind) (rot : Nat) (piv : Int × Int) (b : Board) : Int × Int :=
  dropAux k rot b (((H_BOX_NUM : Int) - piv.2).toNat + 1) piv

/-- Source `Figure.drop()`: hard drop, then set the `stopped` flag. -/
def Fig.drop (f : Fig) (b : Board) : Fig :=
  { f with pivot := dropPivot f.kind f.rot f.pivot b, stopped := true }

/-- Source `NES_GRAVITY_TABLE` (a dict on levels 0..18). -/
def NES_GRAVITY_TABLE : Nat → Option Nat
  | 0 => some 48 | 1 => some 43 | 2 => some 38 | 3 => some 33 | 4 => some 28
  | 5 => some 23 | 6 => some 18 | 7 => some 13 | 8 => some 8 | 9 => some 6
  | 10 => some 5 | 11 => some 5 | 12 => some 5 | 13 => some 4 | 14 => some 4
  | 15 => some 4 | 16 => some 3 | 17 => some 3 | 18 => some 3
  | _ => none

/-- Source `gravity_frames(level)`; `dict.get(level, 48)` is `getD 48`. -/
def gravityFrames (level : Nat) : Nat :=
  if 29 ≤ level then 1
  else if 19 ≤ level then 2
  else (NES_GRAVITY_TABLE level).getD 48

/-- Source `SCORES` dict; absent keys (≥ 5) raise in Python, hence `none`. -/
def SCORES : Nat → Option Nat
  | 0 => some 0 | 1 => some 40 | 2 => some 100 | 3 => some 300 | 4 => some 1200
  | _ => none

/-- The refilled randomizer pool, `SHAPE_KEYS * 5`. -/
def fullPool : List Kind :=
  SHAPE_KEYS ++ SHAPE_KEYS ++ SHAPE_KEYS ++ SHAPE_KEYS ++ SHAPE_KEYS

/-- State of `tgm_randomizer`: remaining pool and the 4-entry history. -/
structure RandState where
  pool : List Kind
  history : List Kind
deriving DecidableEq

/-- One accepted draw of `tgm_randomizer`, with the accepted `roll` made
explicit: the resample loop only ever exits with a pool element absent
from the history; `list.remove` is `List.erase` (first occurrence), the
pool is refilled exactly when it empties, and the history window slides.
A `roll` the loop could not accept yields `none`. -/
def drawStep (s : RandState) (roll : Kind) : Option RandState :=
  if roll ∈ s.pool ∧ roll ∉ s.history then
    let p := s.pool.erase roll
    some ⟨if p.isEmpty then fullPool else p, s.history.drop 1 ++ [roll]⟩
  else
    none

/-- Run the randomizer along a list of accepted rolls. -/
def runFrom : RandState → List Kind → Option RandState
  | s, [] => some s
  | s, r :: rs => match drawStep s r with
    | some t => runFrom t rs
    | none => none

/-- Randomizer states reachable from a fresh generator (full pool, any
4 random seed kinds) by accepted draws. -/
inductive Reachable : RandState → Prop where
  | init (h : List Kind) (hh : h.length = 4) : Reachable ⟨fullPool, h⟩
  | step {s t : RandState} {r : Kind} (hs : Reachable s)
      (hd : drawStep s r = some t) : Reachable t

/-- Row test of `clear_lines`: the canvas query finds the settled blocks
of row `y`; the row is full when there are `W_BOX_NUM` of them. -/
def rowFull (b : Board) (y : Int) : Bool :=
  (b.filter fun c => c.2 == y).length == W_BOX_NUM

/-- The scan of `clear_lines` over the candidate rows: record each full
row and delete its blocks from the board before scanning the next row. -/
def clearAux : List Int → Board → List Int × Board
  | [], b => ([], b)
  | y :: ys, b =>
    if rowFull b y then
      let r := clearAux ys (b.filter fun c => c.2 ≠ y)
      (y :: r.1, r.2)
    else
      clearAux ys b

/-- Source `clear_lines`: returns the number of full rows, the (already
ascending, as returned by `sorted`) full row indices, and the board with
those rows' blocks removed. -/
def clearLines (b : Board) : Nat × List Int × Board :=
  let r := clearAux ((List.range H_BOX_NUM).map (Int.ofNat ·)) b
  (r.1.length, r.1, r.2)

/-- One pass of `finish_line_clear` for a single cleared row: every block
strictly above it moves down one row. -/
def shiftForRow (b : Board) (y : Int) : Board :=
  b.map fun c => if c.2 < y then (c.1, c.2 + 1) else c

/-- The full compaction loop of `finish_line_clear` over the pending
cleared rows, in list order. -/
def finishShift (b : Board) (rows : List Int) : Board :=
  rows.foldl shiftForRow b

/-- The per-cell effect of `finishShift` (the board map commutes with the
row loop; proved below). -/
def cellShift (rows : List Int) (c : Int × Int) : Int × Int :=
  rows.foldl (fun p y => if p.2 < y then (p.1, p.2 + 1) else p) c

/-- The `self.state` strings of the game. -/
inductive GState where
  | langmenu | play | paused | gameover
deriving DecidableEq

/-- Simulation state of `TetrisGame`.  `tape` is the explicit stream of
kinds the randomizer will hand to `next(self.rand)` (randomness made
explicit); everything else is a source field. -/
structure Game where
  state : GState
  langIdx : Nat
  board : Board
  score : Nat
  lines : Nat
  level : Nat
  keysHeld : List String
  gravityCounter : Nat
  dasCounter : Nat
  arrCounter : Nat
  dasDir : Int
  lineClearFrames : Nat
  pendingShift : List Int
  currFig : Fig
  nextKind : Kind
  tape : List Kind
deriving DecidableEq

/-- The gravity threshold chosen by `handle_gravity`: 2 while the down key
is held, otherwise the level table. -/
def gravityLimit (g : Game) : Nat :=
  if g.keysHeld.contains "Down" then 2 else gravityFrames g.level

/-- Source `spawn_figure`: the next figure becomes current (fresh pivot
`[4, 1]`, rotation 0, not stopped); if its spawn cells collide the game is
over (and the randomizer is not consulted), otherwise a new next kind is
taken from the tape.  An exhausted tape is a modelling artifact mapped to
`none` (the Python generator never ends). -/
def spawnFigure (g : Game) : Option Game :=
  let g1 := { g with currFig := ⟨g.nextKind, 0, (4, 1), false⟩ }
  if isColliding (getCoords g.nextKind 0 (4, 1)) g.board then
    some { g1 with state := .gameover }
  else
    match g.tape with
    | [] => none
    | k :: rest => some { g1 with nextKind := k, tape := rest }

/-- Source `start_game`, restricted to simulation fields: enter play,
create the first next figure from the tape, and spawn.  (Canvas drawing
and music are host-side effects with no simulation state.) -/
def startGame (g : Game) : Option Game :=
  match g.tape with
  | [] => none
  | k :: rest => spawnFigure { g with state := .play, nextKind := k, tape := rest }

/-- The board after `lock_figure` has transferred the current figure's
blocks into `self.bg`. -/
def lockBoard (g : Game) : Board :=
  g.board ++ getCoords g.currFig.kind g.currFig.rot g.currFig.pivot

/-- Source `lock_figure`: extend the board with the piece, clear full
rows; on `n ≥ 1` update lines, then score (with the pre-lock level), then
level, and enter the 20-frame freeze; on `n = 0` spawn immediately. -/
def lockFigure (g : Game) : Option Game :=
  let r := clearLines (lockBoard g)
  if 0 < r.1 then
    match SCORES r.1 with
    | some v =>
      some { g with board := r.2.2,
                    lines := g.lines + r.1,
                    score := g.score + v * (g.level + 1),
                    level := (g.lines + r.1) / 10,
                    lineClearFrames := LINE_CLEAR_DELAY_FRAMES,
                    pendingShift := r.2.1 }
    | none => none
  else
    spawnFigure { g with board := r.2.2 }

/-- Source `finish_line_clear`: compact the board along the pending
cleared rows, then spawn. -/
def finishLineClear (g : Game) : Option Game :=
  spawnFigure { g with board := finishShift g.board g.pendingShift }

/-- Source `toggle_pause` (music calls are host-side effects). -/
def togglePause (g : Game) : Game :=
  if g.state = .play then { g with state := .paused }
  else if g.state = .paused then { g with state := .play }
  else g

/-- Source `key_press`, on the simulation state.  In the language menu the
arrows move the selection and Return starts the game; otherwise the event
is dropped when not playing, when the key is already held, or during the
line-clear freeze; an accepted key is recorded as held and dispatched. -/
def keyPress (g : Game) (key : String) : Option Game :=
  if g.state = .langmenu then
    if key = "Up" ∨ key = "Down" then
      some { g with langIdx :=
        (((g.langIdx : Int) + (if key = "Up" then -1 else 1)).emod 5).toNat }
    else if key = "Return" then startGame g
    else some g
  else if g.state ≠ .play ∨ g.keysHeld.contains key ∨ 0 < g.lineClearFrames then
    some g
  else
    let g1 := { g with keysHeld := key :: g.keysHeld }
    if key = "x" ∨ key = "Up" then
      some { g1 with currFig := (g1.currFig.rotate g1.board 1).1 }
    else if key = "z" then
      some { g1 with currFig := (g1.currFig.rotate g1.board (-1)).1 }
    else if key = "space" then
      lockFigure { g1 with currFig := g1.currFig.drop g1.board }
    else if key = "Left" ∨ key = "Right" then
      let d : Int := if key = "Left" then -1 else 1
      some { g1 with dasDir := d,
                     currFig := (g1.currFig.move g1.board d 0).1,
                     dasCounter := 0 }
    else if key = "p" then
      some (togglePause g1)
    else
      some g1

/-- A board whose row 19 is fully occupied and all other rows are empty. -/
def demoBoard : Board :=
  (List.range W_BOX_NUM).map fun x => ((x : Int), (19 : Int))

/-- A fresh randomizer state with seed history O,O,O,O. -/
def randInit : RandState := ⟨fullPool, [.O, .O, .O, .O]⟩

/-- A 34-draw schedule: each kind is accepted at distance at least 5 from
its previous occurrence, all five copies of every kind except O and four
copies of O are consumed, and the final four draws are O,S,Z,I. -/
def stuckRolls : List Kind :=
  [.T, .L, .J, .S, .Z, .I] ++
  [.T, .L, .J, .O, .S, .Z, .I] ++ [.T, .L, .J, .O, .S, .Z, .I] ++
  [.T, .L, .J, .O, .S, .Z, .I] ++ [.T, .L, .J, .O, .S, .Z, .I]

/-- The randomizer state reached by `stuckRolls`: the pool holds only an
O while O sits in the history, so no candidate can ever be accepted. -/
def stuckState : RandState := ⟨[.O], [.O, .S, .Z, .I]⟩

/-- The randomizer state after accepted draws T, L, J from `randInit`. -/
def run3 : RandState :=
  ⟨((fullPool.erase .T).erase .L).erase .J, [.O, .T, .L, .J]⟩

/-- A baseline play-mode game state used to instantiate theorems. -/
def g0 : Game where
  state := .play
  langIdx := 0
  board := []
  score := 0
  lines := 0
  level := 0
  keysHeld := []
  gravityCounter := 0
  dasCounter := 0
  arrCounter := 0
  dasDir := 0
  lineClearFrames := 0
  pendingShift := []
  currFig := ⟨.T, 0, (4, 1), false⟩
  nextKind := .O
  tape := [.I, .S]

/-- Rows 18 and 19 filled except at columns 4 and 5. -/
def row1819 : Board :=
  [(0,18),(1,18),(2,18),(3,18),(6,18),(7,18),(8,18),(9,18),
   (0,19),(1,19),(2,19),(3,19),(6,19),(7,19),(8,19),(9,19)]

/-- A game about to lock an O piece that completes rows 18 and 19. -/
def gDouble : Game :=
  { g0 with board := row1819, currFig := ⟨.O, 0, (4, 18), false⟩ }

/-- C1, counterexample: the claim says any negative coordinate, including
a negative row, is reported occupied; but the bounds test of
`is_colliding` only checks `0 <= x < 10 and y < 20`, so the cell (5, -1)
above the board is reported free on the empty board. -/
theorem C1_counterexample :
    cellBlocked [] (5, -1) = false ∧ isColliding [((5 : Int), (-1 : Int))] [] = false := by
  decide

/-- C1, amended: on every board, a cell with column below 0, column at or
beyond `W_BOX_NUM`, or row at or beyond `H_BOX_NUM` is reported occupied
by the occupancy test of `is_colliding`; a negative row alone is not. -/
theorem C1_amended_occupied (b : Board) (x y : Int)
    (h : x < 0 ∨ (W_BOX_NUM : Int) ≤ x ∨ (H_BOX_NUM : Int) ≤ y) :
    cellBlocked b (x, y) = true ∧ isColliding [(x, y)] b = true := by
  have hb : cellBlocked b (x, y) = true := by
    rw [cellBlocked, if_neg]
    intro hcond
    rcases hcond with ⟨hx0, hx1, hy1⟩
    simp only [W_BOX_NUM, H_BOX_NUM] at h hx1 hy1
    omega
  exact ⟨hb, by simp [isColliding, hb]⟩

/-- C1 witness: instantiation of the amended statement at column -1. -/
theorem C1_witness :
    ((-1 : Int) < 0 ∨ (W_BOX_NUM : Int) ≤ -1 ∨ (H_BOX_NUM : Int) ≤ 5) ∧
    (cellBlocked [] (-1, 5) = true ∧ isColliding [((-1 : Int), (5 : Int))] [] = true) :=
  ⟨Or.inl (by norm_num), C1_amended_occupied [] (-1) 5 (Or.inl (by norm_num))⟩

/-- C7: the gravity threshold is the NES table on levels 0-18 (48 down to
3, with level 9 at 6), 2 on levels 19-28, 1 from level 29 on, and the
soft-drop threshold is 2 frames whenever the down key is held. -/
theorem C7_gravity :
    ((List.range 19).map gravityFrames =
      [48,43,38,33,28,23,18,13,8,6,5,5,5,4,4,4,3,3,3]) ∧
    (∀ l : Nat, 19 ≤ l → l ≤ 28 → gravityFrames l = 2) ∧
    (∀ l : Nat, 29 ≤ l → gravityFrames l = 1) ∧
    gravityFrames 9 = 6 ∧ gravityFrames 19 = 2 ∧ gravityFrames 29 = 1 ∧
    (∀ g : Game, g.keysHeld.contains "Down" = true → gravityLimit g = 2) ∧
    (∀ g : Game, g.keysHeld.contains "Down" = false →
      gravityLimit g = gravityFrames g.level) := by
  refine ⟨by decide, ?_, ?_, by decide, by decide, by decide, ?_, ?_⟩
  · intro l h1 h2
    rw [gravityFrames, if_neg (by omega), if_pos h1]
  · intro l h
    rw [gravityFrames, if_pos h]
  · intro g h
    rw [gravityLimit, if_pos h]
  · intro g h
    rw [gravityLimit, if_neg]
    rw [h]
    exact Bool.false_ne_true

/-- The kick loop returns a pivot exactly when the offset list splits at a
first non-colliding offset, all earlier offsets colliding. -/
theorem tryKicks_some (k : Kind) (nr : Nat) (piv : Int × Int) (b : Board) :
    ∀ (offs : List (Int × Int)) (tp : Int × Int),
      tryKicks k nr piv b offs = some tp →
      ∃ l1 off l2, offs = l1 ++ off :: l2 ∧
        (∀ o ∈ l1,
          isColliding (getCoords k nr (piv.1 + o.1, piv.2 + o.2)) b = true) ∧
        isColliding (getCoords k nr (piv.1 + off.1, piv.2 + off.2)) b = false ∧
        tp = (piv.1 + off.1, piv.2 + off.2) := by
  intro offs
  induction offs with
  | nil => intro tp h; rw [tryKicks] at h; cases h
  | cons o os ih =>
    intro tp h
    rw [tryKicks] at h
    by_cases hc :
        isColliding (getCoords k nr (piv.1 + o.1, piv.2 + o.2)) b = true
    · rw [if_pos hc] at h
      obtain ⟨l1, off, l2, heq, hall, hoff, htp⟩ := ih tp h
      refine ⟨o :: l1, off, l2, by rw [heq]; rfl, ?_, hoff, htp⟩
      intro o2 ho2
      rcases List.mem_cons.mp ho2 with h2 | h2
      · rw [h2]; exact hc
      · exact hall o2 h2
    · have hc' :
          isColliding (getCoords k nr (piv.1 + o.1, piv.2 + o.2)) b = false :=
        Bool.not_eq_true _ ▸ Bool.of_not_eq_true hc
      rw [if_neg hc] at h
      exact ⟨[], o, os, rfl, by simp, hc', (Option.some.inj h).symm⟩

/-- The kick loop fails exactly when every offset collides. -/
theorem tryKicks_none (k : Kind) (nr : Nat) (piv : Int × Int) (b : Board) :
    ∀ offs : List (Int × Int),
      tryKicks k nr piv b offs = none →
      ∀ o ∈ offs,
        isColliding (getCoords k nr (piv.1 + o.1, piv.2 + o.2)) b = true := by
  intro offs
  induction offs with
  | nil => intro _ o ho; cases ho
  | cons o os ih =>
    intro h o2 ho2
    rw [tryKicks] at h
    by_cases hc :
        isColliding (getCoords k nr (piv.1 + o.1, piv.2 + o.2)) b = true
    · rw [if_pos hc] at h
      rcases List.mem_cons.mp ho2 with h2 | h2
      · rw [h2]; exact hc
      · exact ih h o2 h2
    · rw [if_neg hc] at h
      cases h

/-- C2: rotation computes the candidate index (rot + d) mod the rotation
count (Python `%` is `Int.emod` here), tries the pivot offsets in exactly
the order (0,0), (-1,0), (1,0), (-2,0), (2,0), (0,-1), commits rotation
index and pivot together at the first non-colliding offset and returns
true; if all six collide it returns false and leaves the figure
unchanged. -/
theorem C2_rotate_kicks (f : Fig) (b : Board) (d : Int)
    (hd : d = 1 ∨ d = -1) :
    kickOffsets = [(0,0),(-1,0),(1,0),(-2,0),(2,0),(0,-1)] ∧
    ((f.rotate b d).2 = true →
      ∃ l1 off l2, kickOffsets = l1 ++ off :: l2 ∧
        (∀ o ∈ l1,
          isColliding (getCoords f.kind
            (((f.rot : Int) + d).emod (rotCount f.kind)).toNat
            (f.pivot.1 + o.1, f.pivot.2 + o.2)) b = true) ∧
        isColliding (getCoords f.kind
          (((f.rot : Int) + d).emod (rotCount f.kind)).toNat
          (f.pivot.1 + off.1, f.pivot.2 + off.2)) b = false ∧
        (f.rotate b d).1 =
          ⟨f.kind, (((f.rot : Int) + d).emod (rotCount f.kind)).toNat,
            (f.pivot.1 + off.1, f.pivot.2 + off.2), f.stopped⟩) ∧
    ((f.rotate b d).2 = false →
      (∀ o ∈ kickOffsets,
        isColliding (getCoords f.kind
          (((f.rot : Int) + d).emod (rotCount f.kind)).toNat
          (f.pivot.1 + o.1, f.pivot.2 + o.2)) b = true) ∧
      (f.rotate b d).1 = f) := by
  refine ⟨rfl, ?_, ?_⟩
  · cases h : tryKicks f.kind (((f.rot : Int) + d).emod (rotCount f.kind)).toNat
        f.pivot b kickOffsets with
    | some tp =>
      intro _
      obtain ⟨l1, off, l2, heq, hall, hoff, htp⟩ :=
        tryKicks_some f.kind _ f.pivot b kickOffsets tp h
      refine ⟨l1, off, l2, heq, hall, hoff, ?_⟩
      rw [Fig.rotate, h, htp]
    | none =>
      intro hfalse
      rw [Fig.rotate, h] at hfalse
      cases hfalse
  · cases h : tryKicks f.kind (((f.rot : Int) + d).emod (rotCount f.kind)).toNat
        f.pivot b kickOffsets with
    | some tp =>
      intro hfalse
      rw [Fig.rotate, h] at hfalse
      cases hfalse
    | none =>
      intro _
      refine ⟨tryKicks_none f.kind _ f.pivot b kickOffsets h, ?_⟩
      rw [Fig.rotate, h]

/-- C2 witness: a T piece in the open rotates clockwise with the identity
kick. -/
theorem C2_witness :
    ((1 : Int) = 1 ∨ (1 : Int) = -1) ∧
    (((Fig.mk .T 0 (4, 5) false).rotate [] 1).2 = true →
      ∃ l1 off l2, kickOffsets = l1 ++ off :: l2 ∧
        (∀ o ∈ l1,
          isColliding (getCoords Kind.T
            ((((0 : Nat) : Int) + 1).emod (rotCount .T)).toNat
            (4 + o.1, 5 + o.2)) [] = true) ∧
        isColliding (getCoords Kind.T
          ((((0 : Nat) : Int) + 1).emod (rotCount .T)).toNat
          (4 + off.1, 5 + off.2)) [] = false ∧
        ((Fig.mk .T 0 (4, 5) false).rotate [] 1).1 =
          ⟨.T, ((((0 : Nat) : Int) + 1).emod (rotCount .T)).toNat,
            (4 + off.1, 5 + off.2), false⟩) :=
  ⟨Or.inl rfl, (C2_rotate_kicks ⟨.T, 0, (4, 5), false⟩ [] 1 (Or.inl rfl)).2.1⟩

/-- All offsets of a 4-state kind (T, L, J) lie within one cell of the
pivot. -/
theorem offsets_small (k : Kind) (hk : rotCount k = 4) :
    ∀ r : Nat, r < 4 → ∀ o ∈ getOffsets k r,
      -1 ≤ o.1 ∧ o.1 ≤ 1 ∧ -1 ≤ o.2 ∧ o.2 ≤ 1 := by
  cases k
  case T => intro r hr; interval_cases r <;> decide
  case L => intro r hr; interval_cases r <;> decide
  case J => intro r hr; interval_cases r <;> decide
  all_goals exact absurd hk (by decide)

/-- Python-style remainder by 4 lands in [0, 4). -/
theorem emod4_toNat_lt (z : Int) : (z.emod 4).toNat < 4 := by
  show (z % 4).toNat < 4
  omega

/-- On the empty board, a 4-state piece whose pivot is at least one cell
from the side walls and above row 19 rotates with the identity kick: the
pivot is unchanged and the rotation index advances by d mod 4. -/
theorem rotate_center (k : Kind) (hk : rotCount k = 4) (r : Nat)
    (px py : Int) (st : Bool) (d : Int)
    (hx1 : 1 ≤ px) (hx2 : px ≤ 8) (hy : py ≤ 18) :
    (Fig.mk k r (px, py) st).rotate [] d =
      (⟨k, (((r : Int) + d).emod 4).toNat, (px, py), st⟩, true) := by
  have hnr : (((r : Int) + d).emod 4).toNat < 4 := emod4_toNat_lt _
  have hfree : isColliding (getCoords k (((r : Int) + d).emod 4).toNat
      (px + 0, py + 0)) [] = false := by
    rw [isColliding, List.any_eq_false]
    intro c hc
    rw [getCoords] at hc
    rcases List.mem_map.mp hc with ⟨o, ho, rfl⟩
    have hsmall := offsets_small k hk _ hnr o ho
    rw [cellBlocked, if_pos]
    · simp
    · refine ⟨by omega, ?_, ?_⟩
      · show px + 0 + o.1 < ((W_BOX_NUM : Nat) : Int)
        rw [W_BOX_NUM]; push_cast; omega
      · show py + 0 + o.2 < ((H_BOX_NUM : Nat) : Int)
        rw [H_BOX_NUM]; push_cast; omega
  have hkick : tryKicks k (((r : Int) + d).emod 4).toNat (px, py) [] kickOffsets
      = some (px + 0, py + 0) := by
    rw [kickOffsets, tryKicks, if_neg]
    rw [hfree]
    exact Bool.false_ne_true
  rw [Fig.rotate]
  dsimp only
  rw [hk]
  push_cast
  rw [hkick]
  simp

/-- C9, counterexample: a T piece legally placed at pivot (0, 5) in
rotation state 1 on the empty board does not return to its pivot after
two clockwise and two counterclockwise rotations: the first rotation
needs the (+1, 0) wall kick, and the piece ends at pivot (1, 5). -/
theorem C9_counterexample :
    rotCount .T = 4 ∧
    isColliding (getCoords .T 1 (0, 5)) [] = false ∧
    ((((((Fig.mk .T 1 (0, 5) false).rotate [] 1).1.rotate [] 1).1.rotate
        [] (-1)).1.rotate [] (-1)).1.rot = 1 ∧
      (((((Fig.mk .T 1 (0, 5) false).rotate [] 1).1.rotate [] 1).1.rotate
        [] (-1)).1.rotate [] (-1)).1.pivot ≠ (0, 5)) := by
  decide

/-- C9, amended: on the empty board, a piece of a 4-state kind whose
pivot stays at least one cell inside the side walls and above row 19 (so
every rotation lands with the identity kick) returns to its original
rotation index and pivot after two rotate(+1) and two rotate(-1). -/
theorem C9_amended_double_rotate (k : Kind) (hk : rotCount k = 4)
    (r : Nat) (hr : r < 4) (px py : Int) (st : Bool)
    (hx1 : 1 ≤ px) (hx2 : px ≤ 8) (hy : py ≤ 18) :
    (((((Fig.mk k r (px, py) st).rotate [] 1).1.rotate [] 1).1.rotate
        [] (-1)).1.rotate [] (-1)).1 = Fig.mk k r (px, py) st := by
  rw [rotate_center k hk r px py st 1 hx1 hx2 hy]
  dsimp only
  rw [rotate_center k hk _ px py st 1 hx1 hx2 hy]
  dsimp only
  rw [rotate_center k hk _ px py st (-1) hx1 hx2 hy]
  dsimp only
  rw [rotate_center k hk _ px py st (-1) hx1 hx2 hy]
  dsimp only
  simp only [Fig.mk.injEq, eq_self_iff_true, and_true, true_and]
  interval_cases r <;> decide

/-- C9 witness: a T piece at pivot (4, 5) in rotation state 0. -/
theorem C9_witness :
    rotCount .T = 4 ∧ (0 : Nat) < 4 ∧ (1 : Int) ≤ 4 ∧ (4 : Int) ≤ 8 ∧
    (5 : Int) ≤ 18 ∧
    (((((Fig.mk .T 0 (4, 5) false).rotate [] 1).1.rotate [] 1).1.rotate
        [] (-1)).1.rotate [] (-1)).1 = Fig.mk .T 0 (4, 5) false :=
  ⟨by decide, by decide, by norm_num, by norm_num, by norm_num,
   C9_amended_double_rotate .T (by decide) 0 (by decide) 4 5 false
     (by norm_num) (by norm_num) (by norm_num)⟩

/-- What one accepted draw guarantees: the roll came from the pool, was
absent from the history, the history window slides, and the pool is the
erased pool, refilled when empty. -/
theorem drawStep_elim {s : RandState} {r : Kind} {t : RandState}
    (h : drawStep s r = some t) :
    r ∈ s.pool ∧ r ∉ s.history ∧ t.history = s.history.drop 1 ++ [r] ∧
      t.pool = if (s.pool.erase r).isEmpty then fullPool else s.pool.erase r := by
  rw [drawStep] at h
  split at h
  case isTrue hc =>
    refine ⟨hc.1, hc.2, ?_, ?_⟩ <;> rw [← Option.some.inj h]
  case isFalse => cases h

/-- Splitting a run of the randomizer at a list append. -/
theorem runFrom_append (xs ys : List Kind) :
    ∀ s : RandState, runFrom s (xs ++ ys) =
      match runFrom s xs with
      | some t => runFrom t ys
      | none => none := by
  induction xs with
  | nil => intro s; rfl
  | cons r rs ih =>
    intro s
    show runFrom s (r :: (rs ++ ys)) = _
    rw [runFrom, runFrom]
    cases drawStep s r with
    | some t => exact ih t
    | none => rfl

/-- After a run, the history is the last four entries of the seed history
followed by the accepted rolls. -/
theorem runFrom_history :
    ∀ (rolls : List Kind) (s t : RandState), s.history.length = 4 →
      runFrom s rolls = some t →
      t.history = (s.history ++ rolls).drop rolls.length := by
  intro rolls
  induction rolls with
  | nil =>
    intro s t h4 h
    rw [runFrom] at h
    rw [← Option.some.inj h]
    simp
  | cons r rs ih =>
    intro s t h4 h
    rw [runFrom] at h
    cases hd : drawStep s r with
    | none => rw [hd] at h; cases h
    | some u =>
      rw [hd] at h
      have eu := drawStep_elim hd
      have hu4 : u.history.length = 4 := by
        rw [eu.2.2.1, List.length_append, List.length_drop]
        simp [h4]
      have ht := ih u t hu4 h
      rw [ht, eu.2.2.1]
      have h1 : (s.history ++ r :: rs).drop 1 = s.history.drop 1 ++ r :: rs := by
        rw [List.drop_append_eq_append_drop]
        have : 1 - s.history.length = 0 := by omega
        rw [this, List.drop_zero]
      calc ((s.history.drop 1 ++ [r]) ++ rs).drop rs.length
          = (s.history.drop 1 ++ r :: rs).drop rs.length := by
            rw [List.append_assoc, List.singleton_append]
        _ = ((s.history ++ r :: rs).drop 1).drop rs.length := by rw [h1]
        _ = (s.history ++ r :: rs).drop (r :: rs).length := by
            rw [List.drop_drop, List.length_cons, Nat.add_comm]

/-- Reachability is preserved by running accepted draws. -/
theorem runFrom_reachable :
    ∀ (rolls : List Kind) (s t : RandState), Reachable s →
      runFrom s rolls = some t → Reachable t := by
  intro rolls
  induction rolls with
  | nil =>
    intro s t hs h
    rw [runFrom] at h
    rw [← Option.some.inj h]
    exact hs
  | cons r rs ih =>
    intro s t hs h
    rw [runFrom] at h
    cases hd : drawStep s r with
    | none => rw [hd] at h; cases h
    | some u => rw [hd] at h; exact ih u t (Reachable.step hs hd) h

/-- C5, counterexample: a reachable randomizer state (reached by the 34
accepted draws of `stuckRolls` from a fresh generator seeded O,O,O,O) in
which every kind remaining in the pool occurs in the 4-entry history, so
the resample loop has no acceptable candidate. -/
theorem C5_counterexample :
    Reachable stuckState ∧
      ¬ ∃ k, k ∈ stuckState.pool ∧ k ∉ stuckState.history := by
  constructor
  · exact runFrom_reachable stuckRolls randInit stuckState
      (Reachable.init [.O, .O, .O, .O] rfl) (by decide)
  · decide

/-- C5, amended: the resample loop is not bounded on every reachable
state: the reachable state `stuckState` allows no accepted draw at all
(every candidate the loop samples is in the history, so it spins
forever); an acceptable candidate is guaranteed to exist whenever the
pool still holds more than 4 distinct kinds, since the 4-entry history
cannot cover them. -/
theorem C5_resample_loop :
    Reachable stuckState ∧
    (∀ r : Kind, drawStep stuckState r = none) ∧
    (∀ s : RandState, s.history.length = 4 → 4 < s.pool.dedup.length →
      ∃ k, k ∈ s.pool ∧ k ∉ s.history) := by
  refine ⟨runFrom_reachable stuckRolls randInit stuckState
      (Reachable.init [.O, .O, .O, .O] rfl) (by decide),
    by intro r; cases r <;> decide, ?_⟩
  intro s h4 hd
  by_contra hc
  push_neg at hc
  have hsub : s.pool.toFinset ⊆ s.history.toFinset := by
    intro k hk
    exact List.mem_toFinset.mpr (hc k (List.mem_toFinset.mp hk))
  have h1 : s.pool.toFinset.card = s.pool.dedup.length := List.card_toFinset s.pool
  have h2 : s.history.toFinset.card ≤ s.history.length := s.history.toFinset_card_le
  have h3 := Finset.card_le_card hsub
  omega

/-- C5 witness: a fresh generator has 7 distinct kinds in the pool, and
the guarantee produces an acceptable candidate. -/
theorem C5_witness :
    randInit.history.length = 4 ∧ 4 < randInit.pool.dedup.length ∧
    (∃ k, k ∈ randInit.pool ∧ k ∉ randInit.history) :=
  ⟨rfl, by decide, C5_resample_loop.2.2 randInit rfl (by decide)⟩

/-- C6: along any run of accepted draws from a state with a 4-entry
history, two draws with at most two draws between them are distinct (no
kind repeats within any window of 4 consecutive draws); each accepted
draw is absent from the history, comes from the pool, removes one
instance from the pool, and the pool is refilled to 5 copies of the 7
kinds exactly when the removal empties it. -/
theorem C6_no_repeat_window :
    (∀ (s0 sE : RandState) (pre mid post : List Kind) (a c : Kind),
      s0.history.length = 4 →
      runFrom s0 (pre ++ a :: (mid ++ c :: post)) = some sE →
      mid.length ≤ 2 → a ≠ c) ∧
    (∀ (s t : RandState) (r : Kind), drawStep s r = some t →
      r ∉ s.history ∧ r ∈ s.pool ∧
      (¬(s.pool.erase r).isEmpty = true → t.pool = s.pool.erase r) ∧
      ((s.pool.erase r).isEmpty = true → t.pool = fullPool)) := by
  constructor
  · intro s0 sE pre mid post a c h4 hrun hm
    rw [runFrom_append] at hrun
    cases h1 : runFrom s0 pre with
    | none => rw [h1] at hrun; exact Option.noConfusion hrun
    | some s1 =>
      rw [h1] at hrun
      have hb1 : runFrom s1 (a :: (mid ++ c :: post)) = some sE := hrun
      rw [runFrom] at hb1
      cases h2 : drawStep s1 a with
      | none => rw [h2] at hb1; exact Option.noConfusion hb1
      | some s2 =>
        rw [h2] at hb1
        have hb2 : runFrom s2 (mid ++ c :: post) = some sE := hb1
        rw [runFrom_append] at hb2
        cases h3 : runFrom s2 mid with
        | none => rw [h3] at hb2; exact Option.noConfusion hb2
        | some s3 =>
          rw [h3] at hb2
          have hb3 : runFrom s3 (c :: post) = some sE := hb2
          rw [runFrom] at hb3
          cases h5 : drawStep s3 c with
          | none => rw [h5] at hb3; exact Option.noConfusion hb3
          | some s4 =>
            have hs1 : s1.history.length = 4 := by
              have hh := runFrom_history pre s0 s1 h4 h1
              rw [hh, List.length_drop, List.length_append]
              omega
            have e2 := drawStep_elim h2
            have hs2hist : s2.history = s1.history.drop 1 ++ [a] := e2.2.2.1
            have hs2len : s2.history.length = 4 := by
              rw [hs2hist, List.length_append, List.length_drop]
              simp [hs1]
            have hs3 : s3.history = (s2.history ++ mid).drop mid.length :=
              runFrom_history mid s2 s3 hs2len h3
            have e5 := drawStep_elim h5
            have ha : a ∈ s3.history := by
              rw [hs3, hs2hist, List.append_assoc,
                List.drop_append_eq_append_drop]
              have hz : mid.length - (s1.history.drop 1).length = 0 := by
                rw [List.length_drop, hs1]
                omega
              rw [hz, List.drop_zero]
              simp
            intro heq
            rw [heq] at ha
            exact e5.2.1 ha
  · intro s t r h
    have e := drawStep_elim h
    refine ⟨e.2.1, e.1, ?_, ?_⟩
    · intro hne
      rw [e.2.2.2, if_neg hne]
    · intro he
      rw [e.2.2.2, if_pos he]

/-- C6 witness: in the accepted run T, L, J from a fresh generator, the
draws at distance 2 differ. -/
theorem C6_witness : Kind.T ≠ Kind.J :=
  C6_no_repeat_window.1 randInit run3 [] [.L] [] .T .J rfl (by decide)
    (by decide)

/-- Every rotation state of every kind contains the offset (0, 0), so the
pivot itself is always one of the piece's cells. -/
theorem center_mem (k : Kind) (rot : Nat) (hr : rot < rotCount k) :
    ((0 : Int), (0 : Int)) ∈ getOffsets k rot := by
  have h4 : rot < 4 := lt_of_lt_of_le hr (by cases k <;> decide)
  interval_cases rot <;> cases k <;>
    first
    | decide
    | exact absurd hr (by decide)

/-- A cell reported free is inside the walls, above the floor, and not
settled. -/
theorem cellBlocked_false {b : Board} {c : Int × Int}
    (h : cellBlocked b c = false) :
    0 ≤ c.1 ∧ c.1 < (W_BOX_NUM : Int) ∧ c.2 < (H_BOX_NUM : Int) ∧
      b.contains c = false := by
  rw [cellBlocked] at h
  by_cases hc : 0 ≤ c.1 ∧ c.1 < (W_BOX_NUM : Int) ∧ c.2 < (H_BOX_NUM : Int)
  · rw [if_pos hc] at h
    exact ⟨hc.1, hc.2.1, hc.2.2, h⟩
  · rw [if_neg hc] at h
    cases h

/-- A placement reported free has every cell free. -/
theorem isColliding_false_mem {coords : List (Int × Int)} {b : Board}
    (h : isColliding coords b = false) :
    ∀ c ∈ coords, cellBlocked b c = false := by
  rw [isColliding, List.any_eq_false] at h
  intro c hc
  have h2 := h c hc
  revert h2
  cases cellBlocked b c <;> simp

/-- A non-colliding placement keeps its pivot cell in bounds. -/
theorem noncoll_pivot (k : Kind) (rot : Nat) (piv : Int × Int) (b : Board)
    (hrot : rot < rotCount k)
    (h : isColliding (getCoords k rot piv) b = false) :
    0 ≤ piv.1 ∧ piv.1 < (W_BOX_NUM : Int) ∧ piv.2 < (H_BOX_NUM : Int) := by
  have hmem : (piv.1 + 0, piv.2 + 0) ∈ getCoords k rot piv := by
    rw [getCoords]
    exact List.mem_map.mpr ⟨(0, 0), center_mem k rot hrot, rfl⟩
  have hb := cellBlocked_false (isColliding_false_mem h _ hmem)
  refine ⟨by have := hb.1; omega, by have := hb.2.1; omega,
    by have := hb.2.2.1; omega⟩

/-- A placement whose pivot row is at or below the floor collides. -/
theorem coll_below_floor (k : Kind) (rot : Nat) (p : Int × Int) (b : Board)
    (hrot : rot < rotCount k) (hy : (H_BOX_NUM : Int) ≤ p.2) :
    isColliding (getCoords k rot p) b = true := by
  rw [isColliding, List.any_eq_true]
  refine ⟨(p.1 + 0, p.2 + 0), ?_, ?_⟩
  · rw [getCoords]
    exact List.mem_map.mpr ⟨(0, 0), center_mem k rot hrot, rfl⟩
  · rw [cellBlocked, if_neg]
    intro hc
    have h2 := hc.2.2
    omega

/-- The descend loop, run with enough fuel, stops exactly at the first
row whose cell below collides. -/
theorem dropAux_eq (k : Kind) (rot : Nat) (b : Board) (x : Int) :
    ∀ (fuel : Nat) (y : Int) (n : Nat), n < fuel →
      (∀ j : Nat, j < n →
        isColliding (getCoords k rot (x, y + (j : Int) + 1)) b = false) →
      isColliding (getCoords k rot (x, y + (n : Int) + 1)) b = true →
      dropAux k rot b fuel (x, y) = (x, y + (n : Int)) := by
  intro fuel
  induction fuel with
  | zero =>
    intro y n hn _ _
    exact absurd hn (Nat.not_lt_zero n)
  | succ fuel ih =>
    intro y n hn hfree hstop
    rw [dropAux]
    cases n with
    | zero =>
      rw [if_pos (by simpa using hstop)]
      simp
    | succ m =>
      have h0 : isColliding (getCoords k rot (x, y + 1)) b = false := by
        have h1 := hfree 0 (Nat.succ_pos m)
        simpa using h1
      rw [if_neg (by rw [h0]; exact Bool.false_ne_true)]
      have harg : ∀ j : Nat,
          y + ((j + 1 : Nat) : Int) + 1 = y + 1 + (j : Int) + 1 := by
        intro j
        push_cast
        ring
      have ihres := ih (y + 1) m (by omega)
        (by
          intro j hj
          have h2 := hfree (j + 1) (by omega)
          rw [harg j] at h2
          exact h2)
        (by
          have h2 := hstop
          rw [harg m] at h2
          exact h2)
      rw [ihres]
      have e : y + 1 + (m : Int) = y + ((m + 1 : Nat) : Int) := by
        push_cast
        ring
      rw [e]

/-- C8: from any non-colliding placement with the pivot at row -1 or
below in the well (true of every spawn and of ordinary play), the hard
drop loop terminates at a resting position: for some n at most
`H_BOX_NUM`, every intermediate downward step was free, the cell below
the resting position collides, and the piece ends stopped there. -/
theorem C8_hard_drop (f : Fig) (b : Board)
    (hrot : f.rot < rotCount f.kind)
    (hnc : isColliding (getCoords f.kind f.rot f.pivot) b = false)
    (hy : -1 ≤ f.pivot.2) :
    ∃ n : Nat, n ≤ H_BOX_NUM ∧
      f.drop b = ⟨f.kind, f.rot, (f.pivot.1, f.pivot.2 + (n : Int)), true⟩ ∧
      (∀ j : Nat, j ≤ n →
        isColliding (getCoords f.kind f.rot
          (f.pivot.1, f.pivot.2 + (j : Int))) b = false) ∧
      isColliding (getCoords f.kind f.rot
        (f.pivot.1, f.pivot.2 + (n : Int) + 1)) b = true := by
  have hbound := noncoll_pivot f.kind f.rot f.pivot b hrot hnc
  have hy19 : f.pivot.2 ≤ 19 := by
    have h2 := hbound.2.2
    rw [H_BOX_NUM] at h2
    omega
  have hstop19 : isColliding (getCoords f.kind f.rot
      (f.pivot.1, f.pivot.2 + ((19 - f.pivot.2).toNat : Int) + 1)) b = true := by
    apply coll_below_floor f.kind f.rot _ b hrot
    show (H_BOX_NUM : Int) ≤ f.pivot.2 + ((19 - f.pivot.2).toNat : Int) + 1
    rw [H_BOX_NUM]
    omega
  have hex : ∃ n : Nat, isColliding (getCoords f.kind f.rot
      (f.pivot.1, f.pivot.2 + (n : Int) + 1)) b = true :=
    ⟨(19 - f.pivot.2).toNat, hstop19⟩
  have hn := Nat.find_spec hex
  have hmin : ∀ m : Nat, m < Nat.find hex →
      isColliding (getCoords f.kind f.rot
        (f.pivot.1, f.pivot.2 + (m : Int) + 1)) b = false := by
    intro m hm
    have h2 := Nat.find_min hex hm
    revert h2
    cases isColliding (getCoords f.kind f.rot
      (f.pivot.1, f.pivot.2 + (m : Int) + 1)) b <;> simp
  have hnle : Nat.find hex ≤ (19 - f.pivot.2).toNat := Nat.find_le hstop19
  have hdp : dropPivot f.kind f.rot f.pivot b =
      (f.pivot.1, f.pivot.2 + ((Nat.find hex : Nat) : Int)) := by
    rw [dropPivot]
    have hfuel : Nat.find hex < ((H_BOX_NUM : Int) - f.pivot.2).toNat + 1 := by
      rw [H_BOX_NUM]
      omega
    exact dropAux_eq f.kind f.rot b f.pivot.1
      (((H_BOX_NUM : Int) - f.pivot.2).toNat + 1) f.pivot.2 (Nat.find hex)
      hfuel hmin hn
  refine ⟨Nat.find hex, ?_, ?_, ?_, hn⟩
  · rw [H_BOX_NUM]
    omega
  · rw [Fig.drop, hdp]
  · intro j hj
    cases j with
    | zero => simpa using hnc
    | succ m =>
      have h2 := hmin m (by omega)
      have e : f.pivot.2 + ((m + 1 : Nat) : Int) = f.pivot.2 + (m : Int) + 1 := by
        push_cast
        ring
      rw [e]
      exact h2

/-- C8 witness: a freshly spawned T piece on the empty board. -/
theorem C8_witness :
    (0 : Nat) < rotCount .T ∧
    isColliding (getCoords .T 0 (4, 1)) [] = false ∧
    (-1 : Int) ≤ 1 ∧
    ∃ n : Nat, n ≤ H_BOX_NUM ∧
      (Fig.mk .T 0 (4, 1) false).drop [] =
        ⟨.T, 0, ((4 : Int), (1 : Int) + (n : Int)), true⟩ ∧
      (∀ j : Nat, j ≤ n →
        isColliding (getCoords .T 0 ((4 : Int), (1 : Int) + (j : Int))) [] = false) ∧
      isColliding (getCoords .T 0 ((4 : Int), (1 : Int) + (n : Int) + 1)) [] = true :=
  ⟨by decide, by decide, by norm_num,
   C8_hard_drop ⟨.T, 0, (4, 1), false⟩ [] (by decide) (by decide) (by norm_num)⟩

/-- The recorded full rows are a sublist of the scanned row order. -/
theorem clearAux_sublist : ∀ (ys : List Int) (b : Board),
    (clearAux ys b).1.Sublist ys := by
  intro ys
  induction ys with
  | nil => intro b; exact List.Sublist.refl []
  | cons y ys ih =>
    intro b
    rw [clearAux]
    by_cases h : rowFull b y = true
    · rw [if_pos h]
      exact (ih _).cons₂ y
    · rw [if_neg h]
      exact (ih b).cons y

/-- Cells surviving the clear scan come from the input board. -/
theorem clearAux_board_sub : ∀ (ys : List Int) (b : Board) (c : Int × Int),
    c ∈ (clearAux ys b).2 → c ∈ b := by
  intro ys
  induction ys with
  | nil => intro b c hc; exact hc
  | cons y ys ih =>
    intro b c hc
    rw [clearAux] at hc
    by_cases h : rowFull b y = true
    · rw [if_pos h] at hc
      exact List.mem_of_mem_filter (ih _ c hc)
    · rw [if_neg h] at hc
      exact ih b c hc

/-- No surviving cell lies in a cleared row. -/
theorem clearAux_not_cleared : ∀ (ys : List Int) (b : Board) (c : Int × Int),
    c ∈ (clearAux ys b).2 → c.2 ∉ (clearAux ys b).1 := by
  intro ys
  induction ys with
  | nil => intro b c _; simp [clearAux]
  | cons y ys ih =>
    intro b c hc
    rw [clearAux] at hc ⊢
    by_cases h : rowFull b y = true
    · rw [if_pos h] at hc ⊢
      intro hmem
      rcases List.mem_cons.mp hmem with h1 | h1
      · have hcb := clearAux_board_sub ys _ c hc
        have h2 := List.of_mem_filter hcb
        simp at h2
        exact h2 h1
      · exact ih _ c hc h1
    · rw [if_neg h] at hc ⊢
      exact ih b c hc

/-- If the scan records no full row, the board is untouched. -/
theorem clearAux_rows_nil : ∀ (ys : List Int) (b : Board),
    (clearAux ys b).1 = [] → (clearAux ys b).2 = b := by
  intro ys
  induction ys with
  | nil => intro b _; rfl
  | cons y ys ih =>
    intro b h
    rw [clearAux] at h ⊢
    by_cases hf : rowFull b y = true
    · rw [if_pos hf] at h
      exact absurd h (List.cons_ne_nil _ _)
    · rw [if_neg hf] at h ⊢
      exact ih b h

/-- The recorded full rows are strictly ascending. -/
theorem clearLines_pairwise (b : Board) :
    List.Pairwise (· < ·) (clearLines b).2.1 := by
  have hpw : List.Pairwise (· < ·) ((List.range H_BOX_NUM).map (Int.ofNat ·)) := by
    decide
  exact hpw.sublist (clearAux_sublist _ b)

/-- The row loop of the compaction acts independently on each cell. -/
theorem finishShift_map : ∀ (rows : List Int) (b : Board),
    finishShift b rows = b.map (cellShift rows) := by
  intro rows
  induction rows with
  | nil =>
    intro b
    show b = b.map fun c => c
    rw [List.map_id']
  | cons y ys ih =>
    intro b
    show finishShift (shiftForRow b y) ys = _
    rw [ih (shiftForRow b y), shiftForRow, List.map_map]
    rfl

/-- A cell strictly above every pending row moves down once per row. -/
theorem cellShift_all_gt : ∀ (rows : List Int) (c : Int × Int),
    List.Pairwise (· < ·) rows → (∀ y ∈ rows, c.2 < y) →
    cellShift rows c = (c.1, c.2 + rows.length) := by
  intro rows
  induction rows with
  | nil => intro c _ _; simp [cellShift]
  | cons y ys ih =>
    intro c hpw hall
    obtain ⟨hhead, htail⟩ := List.pairwise_cons.mp hpw
    have hy : c.2 < y := hall y (List.mem_cons_self y ys)
    have hstep : cellShift (y :: ys) c =
        cellShift ys (if c.2 < y then (c.1, c.2 + 1) else c) := rfl
    rw [hstep, if_pos hy]
    rw [ih (c.1, c.2 + 1) htail (by intro z hz; have := hhead z hz; dsimp; omega)]
    have e : c.2 + 1 + ((ys.length : Nat) : Int) =
        c.2 + (((y :: ys).length : Nat) : Int) := by
      rw [List.length_cons]
      push_cast
      ring
    rw [Prod.mk.injEq]
    exact ⟨rfl, e⟩

/-- The iterated per-row shift moves a cell down by exactly the number of
pending rows strictly below it, provided the pending rows are ascending
and the cell is on none of them. -/
theorem cellShift_count : ∀ (rows : List Int) (c : Int × Int),
    List.Pairwise (· < ·) rows → c.2 ∉ rows →
    cellShift rows c =
      (c.1, c.2 + (rows.countP fun y => decide (c.2 < y))) := by
  intro rows
  induction rows with
  | nil => intro c _ _; simp [cellShift]
  | cons y ys ih =>
    intro c hpw hmem
    obtain ⟨hhead, htail⟩ := List.pairwise_cons.mp hpw
    have hne : c.2 ≠ y := fun h => hmem (h ▸ List.mem_cons_self y ys)
    have hstep : cellShift (y :: ys) c =
        cellShift ys (if c.2 < y then (c.1, c.2 + 1) else c) := rfl
    by_cases hcy : c.2 < y
    · rw [hstep, if_pos hcy]
      rw [cellShift_all_gt ys _ htail
        (by intro z hz; have := hhead z hz; dsimp; omega)]
      have hcount : (List.countP (fun y2 => decide (c.2 < y2)) (y :: ys)) =
          ys.length + 1 := by
        rw [List.countP_cons]
        have h1 : (decide (c.2 < y) : Bool) = true := by simp [hcy]
        rw [h1]
        have h2 : List.countP (fun y2 => decide (c.2 < y2)) ys = ys.length :=
          List.countP_eq_length.mpr
            (by intro z hz; have := hhead z hz; simp; omega)
        rw [h2]
        simp
      rw [hcount, Prod.mk.injEq]
      refine ⟨rfl, ?_⟩
      push_cast
      ring
    · rw [hstep, if_neg hcy]
      have h2 : c.2 ∉ ys := fun h => hmem (List.mem_cons_of_mem y h)
      rw [ih c htail h2]
      have hcount : (List.countP (fun y2 => decide (c.2 < y2)) (y :: ys)) =
          List.countP (fun y2 => decide (c.2 < y2)) ys := by
        rw [List.countP_cons]
        simp [hcy]
      rw [hcount]

/-- C4: full-row detection removes all occupancy in the detected rows and
reports them in ascending order; the batch compaction then shifts every
remaining cell down by exactly the number of cleared rows strictly below
it; concretely, a board with only row 19 full yields rows [19] and an
empty board. -/
theorem C4_clear_rows :
    (clearLines demoBoard = (1, [(19 : Int)], []) ∧
      finishShift [] [(19 : Int)] = []) ∧
    (∀ b : Board, List.Pairwise (· < ·) (clearLines b).2.1) ∧
    (∀ b : Board, ∀ c ∈ (clearLines b).2.2, c.2 ∉ (clearLines b).2.1) ∧
    (∀ (b : Board) (rows : List Int), List.Pairwise (· < ·) rows →
      (∀ c ∈ b, c.2 ∉ rows) →
      finishShift b rows = b.map fun c =>
        (c.1, c.2 + ((rows.countP fun y => decide (c.2 < y) : Nat) : Int))) := by
  refine ⟨by decide, clearLines_pairwise, ?_, ?_⟩
  · intro b c hc
    exact clearAux_not_cleared _ b c hc
  · intro b rows hpw hcells
    rw [finishShift_map]
    apply List.map_congr_left
    intro c hc
    exact cellShift_count rows c hpw (hcells c hc)

/-- C4 witness: one cell above two pending cleared rows shifts down by
two. -/
theorem C4_witness :
    List.Pairwise (· < ·) [(18 : Int), 19] ∧
    (∀ c ∈ ([((3 : Int), (5 : Int))] : Board), c.2 ∉ [(18 : Int), 19]) ∧
    finishShift [((3 : Int), (5 : Int))] [(18 : Int), 19] =
      ([((3 : Int), (5 : Int))] : Board).map (fun c =>
        (c.1, c.2 +
          (([(18 : Int), 19].countP fun y => decide (c.2 < y) : Nat) : Int))) :=
  ⟨by decide, by decide,
   C4_clear_rows.2.2.2 [((3 : Int), (5 : Int))] [(18 : Int), 19]
     (by decide) (by decide)⟩

/-- Spawning never changes score, lines, or level. -/
theorem spawnFigure_preserves (g g2 : Game) (h : spawnFigure g = some g2) :
    g2.score = g.score ∧ g2.lines = g.lines ∧ g2.level = g.level := by
  simp only [spawnFigure] at h
  by_cases hc : isColliding (getCoords g.nextKind 0 (4, 1)) g.board = true
  · rw [if_pos hc] at h
    rw [← Option.some.inj h]
    exact ⟨rfl, rfl, rfl⟩
  · rw [if_neg hc] at h
    cases ht : g.tape with
    | nil => rw [ht] at h; cases h
    | cons k rest =>
      rw [ht] at h
      rw [← Option.some.inj h]
      exact ⟨rfl, rfl, rfl⟩

/-- C3: locking with n full rows (1 ≤ n ≤ 4) adds SCORES[n]·(level+1)
computed from the pre-lock level, adds n to the lines, recomputes
level = lines / 10, and enters the 20-frame freeze; a 2-row clear awards
+100 at level 0 and +400 at level 3; with no full row the next piece
spawns immediately with score, lines, and level unchanged. -/
theorem C3_lock_scoring (g : Game) (n : Nat) (rows : List Int) (b2 : Board)
    (hcl : clearLines (lockBoard g) = (n, rows, b2)) :
    (1 ≤ n → n ≤ 4 →
      ∃ g2 v, lockFigure g = some g2 ∧ SCORES n = some v ∧
        g2.score = g.score + v * (g.level + 1) ∧
        g2.lines = g.lines + n ∧
        g2.level = (g.lines + n) / 10 ∧
        g2.lineClearFrames = 20 ∧
        (n = 2 → g.level = 0 → g2.score = g.score + 100) ∧
        (n = 2 → g.level = 3 → g2.score = g.score + 400)) ∧
    (n = 0 →
      b2 = lockBoard g ∧
      lockFigure g = spawnFigure { g with board := lockBoard g } ∧
      ∀ g2, lockFigure g = some g2 →
        g2.score = g.score ∧ g2.lines = g.lines ∧ g2.level = g.level) ∧
    ((List.range 5).map SCORES =
      [some 0, some 40, some 100, some 300, some 1200]) := by
  have hbody : lockFigure g =
      (if 0 < n then
        match SCORES n with
        | some v =>
          some { g with board := b2,
                        lines := g.lines + n,
                        score := g.score + v * (g.level + 1),
                        level := (g.lines + n) / 10,
                        lineClearFrames := LINE_CLEAR_DELAY_FRAMES,
                        pendingShift := rows }
        | none => none
      else spawnFigure { g with board := b2 }) := by
    simp only [lockFigure]
    rw [hcl]
  refine ⟨?_, ?_, by decide⟩
  · intro h1 h2
    interval_cases n
    · exact ⟨_, 40, by rw [hbody]; rfl, rfl, rfl, rfl, rfl, rfl,
        fun h => absurd h (by norm_num),
        fun h => absurd h (by norm_num)⟩
    · refine ⟨_, 100, by rw [hbody]; rfl, rfl, rfl, rfl, rfl, rfl, ?_, ?_⟩
      · intro _ hl
        show g.score + 100 * (g.level + 1) = g.score + 100
        rw [hl]
      · intro _ hl
        show g.score + 100 * (g.level + 1) = g.score + 400
        rw [hl]
    · exact ⟨_, 300, by rw [hbody]; rfl, rfl, rfl, rfl, rfl, rfl,
        fun h => absurd h (by norm_num),
        fun h => absurd h (by norm_num)⟩
    · exact ⟨_, 1200, by rw [hbody]; rfl, rfl, rfl, rfl, rfl, rfl,
        fun h => absurd h (by norm_num),
        fun h => absurd h (by norm_num)⟩
  · intro h0
    have hlen : n = rows.length := by
      have hx : (clearLines (lockBoard g)).1 =
          ((clearLines (lockBoard g)).2.1).length := rfl
      rw [hcl] at hx
      exact hx
    have hrows : rows = [] := List.length_eq_zero.mp (by omega)
    have hb2 : b2 = lockBoard g := by
      have h2 : (clearAux ((List.range H_BOX_NUM).map (Int.ofNat ·))
          (lockBoard g)).1 = [] := by
        have : (clearLines (lockBoard g)).2.1 = rows := by rw [hcl]
        rw [hrows] at this
        exact this
      have h3 := clearAux_rows_nil _ (lockBoard g) h2
      have h4 : (clearLines (lockBoard g)).2.2 = b2 := by rw [hcl]
      rw [← h4]
      exact h3
    subst h0
    refine ⟨hb2, ?_, ?_⟩
    · rw [hbody, if_neg (by norm_num), hb2]
    · intro g2 hg2
      rw [hbody, if_neg (by norm_num)] at hg2
      have := spawnFigure_preserves _ g2 hg2
      exact this

/-- C3 witness: an O piece completing rows 18 and 19 at level 0. -/
theorem C3_witness :
    ∃ g2 v, lockFigure gDouble = some g2 ∧ SCORES 2 = some v ∧
      g2.score = gDouble.score + v * (gDouble.level + 1) ∧
      g2.lines = gDouble.lines + 2 ∧
      g2.level = (gDouble.lines + 2) / 10 ∧
      g2.lineClearFrames = 20 ∧
      (2 = 2 → gDouble.level = 0 → g2.score = gDouble.score + 100) ∧
      (2 = 2 → gDouble.level = 3 → g2.score = gDouble.score + 400) :=
  (C3_lock_scoring gDouble 2 [18, 19] [] (by decide)).1
    (by norm_num) (by norm_num)

/-- C10: while the line-clear freeze is counting down in play mode, every
key press is ignored: nothing moves, rotates, drops, or pauses, the key
is not recorded as held, and the whole session state is unchanged. -/
theorem C10_freeze_ignores_keys (g : Game) (h1 : g.state = .play)
    (h2 : 0 < g.lineClearFrames) (key : String) :
    keyPress g key = some g := by
  rw [keyPress]
  rw [if_neg (by rw [h1]; exact fun hc => GState.noConfusion hc)]
  rw [if_pos (Or.inr (Or.inr h2))]

/-- C10 witness: a mid-freeze game ignores the pause key. -/
theorem C10_witness :
    ({ g0 with lineClearFrames := 7 } : Game).state = .play ∧
    0 < ({ g0 with lineClearFrames := 7 } : Game).lineClearFrames ∧
    keyPress { g0 with lineClearFrames := 7 } "p" =
      some { g0 with lineClearFrames := 7 } :=
  ⟨rfl, by norm_num,
   C10_freeze_ignores_keys { g0 with lineClearFrames := 7 } rfl
     (by norm_num) "p"⟩

/-- C7 witness: levels 20, 30 and the soft-drop override on concrete
game states. -/
theorem C7_witness :
    gravityFrames 20 = 2 ∧ gravityFrames 30 = 1 ∧
    gravityLimit { g0 with keysHeld := ["Down"] } = 2 ∧
    gravityLimit g0 = gravityFrames g0.level :=
  ⟨C7_gravity.2.1 20 (by norm_num) (by norm_num),
   C7_gravity.2.2.1 30 (by norm_num),
   C7_gravity.2.2.2.2.2.2.1 _ (by decide),
   C7_gravity.2.2.2.2.2.2.2 g0 (by decide)⟩

end Tetris
